import Mathlib

/-!
Verification development for the my-color-palettes-storage extension.

The definitions below are shallow embeddings of the repository's pure
logic, translated function-by-function from the source:

* isValidColor               (src/src/utils.ts)
* updateKeywords             (src/src/hooks/useKeywords.ts)
* handleUpdateKeywords       (save-color-palettes command)
* extractColorValues         (utils/formHelpers)
* submitPalette              (hooks/usePaletteSubmission)
* useColorFields operations  (src/src/hooks/useColorFields.ts)

Strings are modelled as lists of characters.  JavaScript regular
expression character classes are modelled by executable character
predicates; the class \s is modelled by its ASCII members (space, tab,
newline, carriage return, vertical tab, form feed), which covers every
string the specification talks about.  parseInt on a digit string is
modelled by the exact decimal value; parseFloat on the alpha tokens the
regex can produce (0, 1, 0.ddd, .ddd) is modelled by the exact value
num / 10 ^ k, carried as the pair (num, k), which decides the
0 <= a <= 1 comparison identically to the floating-point comparison
because those token shapes never round across 0 or 1.
-/

abbrev Str := List Char

/-- Model of the regular-expression class \s (ASCII members). -/
def wsChar (c : Char) : Bool :=
  c = ' ' || c = '\t' || c = '\n' || c = '\r' || c = '\x0b' || c = '\x0c'

/-- Model of the regular-expression class \d. -/
def isDigitChar (c : Char) : Bool :=
  c = '0' || c = '1' || c = '2' || c = '3' || c = '4' ||
  c = '5' || c = '6' || c = '7' || c = '8' || c = '9'

/-- Model of the regular-expression class [A-Fa-f0-9]. -/
def isHexDigitChar (c : Char) : Bool :=
  isDigitChar c ||
  c = 'a' || c = 'b' || c = 'c' || c = 'd' || c = 'e' || c = 'f' ||
  c = 'A' || c = 'B' || c = 'C' || c = 'D' || c = 'E' || c = 'F'

/-- JavaScript String.prototype.trim: drop whitespace from both ends. -/
def trimEnds (cs : Str) : Str :=
  ((cs.dropWhile wsChar).reverse.dropWhile wsChar).reverse

/-- Skip a \s* segment. -/
def dropSpaces (cs : Str) : Str := cs.dropWhile wsChar

/-- parseInt(_, 10) on a digit string: its decimal value
(each character contributes its code point minus 48). -/
def digitsToNat (ds : Str) : Nat :=
  ds.foldl (fun n c => n * 10 + (c.toNat - 48)) 0

/-- Match a literal character prefix, returning the remainder. -/
def stripChars : Str → Str → Option Str
  | [], cs => some cs
  | p :: ps, c :: cs => if c = p then stripChars ps cs else none
  | _ :: _, [] => none

/-- Match the regex fragment (\d{1,3}) greedily (a longer digit run makes
the whole pattern fail, since the next token is never a digit). -/
def parseChannel (cs : Str) : Option (Nat × Str) :=
  let ds := cs.takeWhile isDigitChar
  if 1 ≤ ds.length ∧ ds.length ≤ 3 then
    some (digitsToNat ds, cs.dropWhile isDigitChar)
  else none

/-- Match the regex fragment \s*, returning the remainder after the comma. -/
def expectComma (cs : Str) : Option Str :=
  match dropSpaces cs with
  | c :: rest => if c = ',' then some rest else none
  | [] => none

/-- Match the regex fragment \s*\)$ (the closing parenthesis ends the string). -/
def expectClose (cs : Str) : Bool :=
  decide (dropSpaces cs = [')'])

/-- Match the regex fragment \.\d+ at the head, returning the parseFloat
fraction value (as numerator and power-of-ten exponent) and the remainder. -/
def parseFrac (cs : Str) : Option ((Nat × Nat) × Str) :=
  match cs with
  | c :: rest =>
    if c = '.' then
      let ds := rest.takeWhile isDigitChar
      if ds.length = 0 then none
      else some ((digitsToNat ds, ds.length), rest.dropWhile isDigitChar)
    else none
  | [] => none

/-- Match the regex alternation (0|1|0?\.\d+) followed by \s*\)$, with the
backtracking order of the source pattern, returning parseFloat of the
matched token as the pair (num, k) standing for num / 10 ^ k. -/
def alphaMatch (cs : Str) : Option (Nat × Nat) :=
  match cs with
  | c :: rest =>
    if c = '0' then
      if expectClose rest then some (0, 0)
      else
        match parseFrac rest with
        | some (q, rest2) => if expectClose rest2 then some q else none
        | none => none
    else if c = '1' then
      if expectClose rest then some (1, 0) else none
    else
      match parseFrac cs with
      | some (q, rest2) => if expectClose rest2 then some q else none
      | none => none
  | [] => none

/-- Model of the hexPattern test in isValidColor:
a hash sign followed by exactly 6 or exactly 3 hexadecimal digits. -/
def hexMatch (cs : Str) : Bool :=
  match cs with
  | c :: rest =>
    decide (c = '#') && (decide (rest.length = 6) || decide (rest.length = 3))
      && rest.all isHexDigitChar
  | [] => false

/-- Model of trimmedColor.match(rgbPattern): the three captured channel
values, or none when the pattern does not match. -/
def rgbMatch (cs : Str) : Option (Nat × Nat × Nat) :=
  (stripChars ['r', 'g', 'b', '('] cs).bind (fun rest =>
  (parseChannel (dropSpaces rest)).bind (fun rc =>
  (expectComma rc.2).bind (fun rest2 =>
  (parseChannel (dropSpaces rest2)).bind (fun gc =>
  (expectComma gc.2).bind (fun rest4 =>
  (parseChannel (dropSpaces rest4)).bind (fun bc =>
  if expectClose bc.2 then some (rc.1, gc.1, bc.1) else none))))))

/-- Model of trimmedColor.match(rgbaPattern): the three channel values and
the parseFloat value of the alpha capture as (num, k). -/
def rgbaMatch (cs : Str) : Option (Nat × Nat × Nat × (Nat × Nat)) :=
  (stripChars ['r', 'g', 'b', 'a', '('] cs).bind (fun rest =>
  (parseChannel (dropSpaces rest)).bind (fun rc =>
  (expectComma rc.2).bind (fun rest2 =>
  (parseChannel (dropSpaces rest2)).bind (fun gc =>
  (expectComma gc.2).bind (fun rest4 =>
  (parseChannel (dropSpaces rest4)).bind (fun bc =>
  (expectComma bc.2).bind (fun rest6 =>
  (alphaMatch (dropSpaces rest6)).bind (fun q =>
  some (rc.1, gc.1, bc.1, q)))))))))

/-- isValidColor from src/src/utils.ts: trim, reject the empty string,
test the hex pattern, then the rgb pattern with the 0..255 range check
(the lower bound is automatic for an unsigned digit parse), then the rgba
pattern with the range checks on the channels and on alpha. -/
def isValidColor (cs : Str) : Bool :=
  let t := trimEnds cs
  if t = [] then false
  else if hexMatch t then true
  else
    match rgbMatch t with
    | some (r, g, b) =>
      decide (r ≤ 255) && decide (g ≤ 255) && decide (b ≤ 255)
    | none =>
      match rgbaMatch t with
      | some (r, g, b, a) =>
        (decide (r ≤ 255) && decide (g ≤ 255) && decide (b ≤ 255))
          && (decide (0 ≤ a.1) && decide (a.1 ≤ 10 ^ a.2))
      | none => false

/-! ## Keyword reconciliation (src/src/hooks/useKeywords.ts, updateKeywords) -/

/-- keywordsText.split(",") : split at every comma, keeping empty pieces. -/
def splitCommaAux (cs : Str) (acc : Str) : List Str :=
  match cs with
  | [] => [acc.reverse]
  | c :: rest =>
    if c = ',' then acc.reverse :: splitCommaAux rest []
    else splitCommaAux rest (c :: acc)

/-- The token list of updateKeywords:
split(",").map(trim).filter(Boolean). -/
def tokenize (cs : Str) : List Str :=
  ((splitCommaAux cs []).map trimEnds).filter (fun t => decide (t ≠ []))

/-- One iteration of the forEach body of updateKeywords: a token starting
with an exclamation mark removes its target (slice(1)) from the working
list, any other token is appended unless already present. -/
def applyToken (acc : List Str) (kw : Str) : List Str :=
  if kw.head? = some '!' then acc.filter (fun t => decide (t ≠ kw.tail))
  else if kw ∈ acc then acc else acc ++ [kw]

structure ReconcileResult where
  nextKeywords : List Str
  addedKeywords : List Str
  deriving DecidableEq

/-- updateKeywords from src/src/hooks/useKeywords.ts as a pure function of
the stored keyword list and the input text: the working list is folded
over the tokens in their original order, and the returned addedKeywords
is the filter of the tokens that are not removals. -/
def updateKeywords (current : List Str) (text : Str) : ReconcileResult :=
  let toks := tokenize text
  { nextKeywords := toks.foldl applyToken current
  , addedKeywords := toks.filter (fun k => decide (k.head? ≠ some '!')) }

/-- handleUpdateKeywords from the save-color-palettes command: runs
updateKeywords against the stored list and appends the returned
addedKeywords to the form-level keywords value
(setFormValues with prev concatenated with updatedKeywords).
Returns (new stored list, new form-level keywords). -/
def handleUpdateKeywords (stored formKeywords : List Str) (text : Str) :
    List Str × List Str :=
  let r := updateKeywords stored text
  (r.nextKeywords, formKeywords ++ r.addedKeywords)

/-! ## Form helpers and palette assembly -/

/-- Boolean coercion used by .filter(Boolean): undefined and the empty
string are falsy, every other string is truthy. -/
def jsTruthy : Option Str → Bool
  | none => false
  | some s => decide (s ≠ [])

/-- extractColorValues from utils/formHelpers: build the list of the
fields color1 .. colorN (an absent field contributes none), keep the
truthy entries, and project out the string values. -/
def extractColorValues (values : Nat → Option Str) (colorCount : Nat) :
    List Str :=
  ((((List.range colorCount).map (fun i => values (i + 1))).filter
    jsTruthy).map (fun v => v.getD []))

structure StoredPalette where
  id : Str
  name : Str
  description : Str
  mode : Str
  keywords : List Str
  colors : List Str
  createdAt : Str
  deriving DecidableEq

/-- The palette object literal assembled in submitPalette
(hooks/usePaletteSubmission): plain field assembly, with keywords
defaulting to the empty list when the form value is absent. -/
def buildPalette (id createdAt name description mode : Str)
    (keywords : Option (List Str)) (colors : List Str) : StoredPalette :=
  { id := id
  , name := name
  , description := description
  , mode := mode
  , keywords := keywords.getD []
  , colors := colors
  , createdAt := createdAt }

/-! ## Submission flow (hooks/usePaletteSubmission, submitPalette) -/

inductive SubmitEvent
  | storeWrite
  | toastSuccess
  | toastFailure
  | logError
  | cleanup
  | navigate
  deriving DecidableEq

structure SubmitResult where
  events : List SubmitEvent
  stored : List StoredPalette
  threw : Bool
  deriving DecidableEq

/-- submitPalette from hooks/usePaletteSubmission, with the outcome of the
awaited storage write supplied as a parameter (writeOk = false models
setStoredPalettes rejecting/throwing).  The try block prepends the new
palette and writes, then shows the success toast, runs the onSubmit
cleanup callback, and navigates; the catch block logs the error and shows
one failure toast, and the error is not re-thrown.  The navigation open
call is modelled as succeeding. -/
def submitPalette (writeOk : Bool) (prevStored : List StoredPalette)
    (palette : StoredPalette) : SubmitResult :=
  if writeOk then
    { events := [SubmitEvent.storeWrite, SubmitEvent.toastSuccess,
                 SubmitEvent.cleanup, SubmitEvent.navigate]
    , stored := palette :: prevStored
    , threw := false }
  else
    { events := [SubmitEvent.storeWrite, SubmitEvent.logError,
                 SubmitEvent.toastFailure]
    , stored := prevStored
    , threw := false }

/-! ## Color-field count (src/src/hooks/useColorFields.ts) -/

/-- addColorField: prev + 1. -/
def addColorField (n : Nat) : Nat := n + 1

/-- removeColorField: Math.max(1, prev - 1). -/
def removeColorField (n : Nat) : Nat := max 1 (n - 1)

/-- resetColorFields: back to a single field. -/
def resetColorFields (_ : Nat) : Nat := 1

inductive FieldOp
  | add
  | remove
  | reset
  deriving DecidableEq

def applyFieldOp (n : Nat) : FieldOp → Nat
  | FieldOp.add => addColorField n
  | FieldOp.remove => removeColorField n
  | FieldOp.reset => resetColorFields n

def runFieldOps (n : Nat) (ops : List FieldOp) : Nat :=
  ops.foldl applyFieldOp n


/-! ## Derived grammar predicates and auxiliary definitions -/

/-- Characters that may occur in an alpha token: digits and the dot. -/
def digitOrDot (c : Char) : Bool :=
  isDigitChar c || c = '.'

/-- The language of the regex fragment \.\d+ taken as a whole token. -/
def fracTail (cs : Str) : Bool :=
  match cs with
  | c :: ds => decide (c = '.') && decide (ds ≠ []) && ds.all isDigitChar
  | [] => false

/-- The language of the alpha alternation (0|1|0?\.\d+) taken as a whole
token: the literal 0, the literal 1, or an optional leading 0 followed by
a dot and one or more digits. -/
def alphaTokenOK (cs : Str) : Bool :=
  decide (cs = ['0']) || decide (cs = ['1']) ||
  (match cs with
   | c :: rest => if c = '0' then fracTail rest else fracTail cs
   | [] => false)

/-- A channel as written in the source text: one to three digits. -/
def chanOK (cs : Str) : Prop :=
  cs ≠ [] ∧ cs.length ≤ 3 ∧ cs.all isDigitChar = true

instance (cs : Str) : Decidable (chanOK cs) := by
  unfold chanOK; infer_instance

/-- The ASCII uppercase map restricted to the characters that occur in
hexadecimal color strings; it agrees with String.prototype.toUpperCase
on every hexadecimal digit. -/
def upperHexChar (c : Char) : Char :=
  if c = 'a' then 'A' else if c = 'b' then 'B' else if c = 'c' then 'C'
  else if c = 'd' then 'D' else if c = 'e' then 'E' else if c = 'f' then 'F'
  else c

/-- The ASCII lowercase map restricted to the characters that occur in
hexadecimal color strings; it agrees with String.prototype.toLowerCase
on every hexadecimal digit. -/
def lowerHexChar (c : Char) : Char :=
  if c = 'A' then 'a' else if c = 'B' then 'b' else if c = 'C' then 'c'
  else if c = 'D' then 'd' else if c = 'E' then 'e' else if c = 'F' then 'f'
  else c

/-- The specification's wording of color extraction: in increasing slot
index order, exactly the values of the fields color1 .. colorN that are
present and non-empty. -/
def extractColorsSpec (values : Nat → Option Str) (n : Nat) : List Str :=
  (List.range n).filterMap (fun i =>
    match values (i + 1) with
    | some s => if s = [] then none else some s
    | none => none)

/-- A concrete palette used to instantiate closed statements. -/
def examplePalette : StoredPalette :=
  buildPalette [] [] ("Ocean".data) [] ("light".data) (some [])
    ["#fff".data]

/-! ## Helper lemmas about character classes -/

theorem wsChar_elim (c : Char) (h : wsChar c = true) :
    c = ' ' ∨ c = '\t' ∨ c = '\n' ∨ c = '\r' ∨ c = '\x0b' ∨ c = '\x0c' := by
  simp only [wsChar, Bool.or_eq_true, decide_eq_true_eq] at h
  tauto

theorem digit_elim (c : Char) (h : isDigitChar c = true) :
    c = '0' ∨ c = '1' ∨ c = '2' ∨ c = '3' ∨ c = '4' ∨
    c = '5' ∨ c = '6' ∨ c = '7' ∨ c = '8' ∨ c = '9' := by
  simp only [isDigitChar, Bool.or_eq_true, decide_eq_true_eq] at h
  tauto

theorem ws_not_digit (c : Char) (h : wsChar c = true) : isDigitChar c = false := by
  rcases wsChar_elim c h with h | h | h | h | h | h <;> subst h <;> decide

theorem digit_not_ws (c : Char) (h : isDigitChar c = true) : wsChar c = false := by
  rcases digit_elim c h with h | h | h | h | h | h | h | h | h | h <;>
    subst h <;> decide

theorem digit_val_le (c : Char) (h : isDigitChar c = true) : c.toNat - 48 ≤ 9 := by
  rcases digit_elim c h with h | h | h | h | h | h | h | h | h | h <;>
    subst h <;> decide

theorem digitOrDot_not_ws (c : Char) (h : digitOrDot c = true) :
    wsChar c = false := by
  simp only [digitOrDot, Bool.or_eq_true, decide_eq_true_eq] at h
  rcases h with h | h
  · exact digit_not_ws c h
  · subst h; decide

theorem hex_elim (c : Char) (h : isHexDigitChar c = true) :
    isDigitChar c = true ∨
    c = 'a' ∨ c = 'b' ∨ c = 'c' ∨ c = 'd' ∨ c = 'e' ∨ c = 'f' ∨
    c = 'A' ∨ c = 'B' ∨ c = 'C' ∨ c = 'D' ∨ c = 'E' ∨ c = 'F' := by
  simp only [isHexDigitChar, Bool.or_eq_true, decide_eq_true_eq] at h
  tauto

theorem hex_not_ws (c : Char) (h : isHexDigitChar c = true) : wsChar c = false := by
  rcases hex_elim c h with h | h | h | h | h | h | h | h | h | h | h | h | h
  · exact digit_not_ws c h
  all_goals (subst h; decide)

theorem hex_upper (c : Char) (h : isHexDigitChar c = true) :
    isHexDigitChar (upperHexChar c) = true := by
  unfold upperHexChar
  split_ifs <;> first | decide | exact h

theorem hex_lower (c : Char) (h : isHexDigitChar c = true) :
    isHexDigitChar (lowerHexChar c) = true := by
  unfold lowerHexChar
  split_ifs <;> first | decide | exact h

/-! ## Helper lemmas about trimming and parsing -/

theorem dropWhile_head_false {α : Type} (p : α → Bool) (l : List α) (c : α)
    (h : l.head? = some c) (hp : p c = false) : l.dropWhile p = l := by
  cases l with
  | nil => simp at h
  | cons a t =>
    simp only [List.head?_cons, Option.some.injEq] at h
    subst h
    simp [List.dropWhile_cons, hp]

theorem head_of_dropWhile {α : Type} (p : α → Bool) (l : List α) (c : α)
    (h : (l.dropWhile p).head? = some c) : p c = false := by
  induction l with
  | nil => simp [List.dropWhile_nil] at h
  | cons a t ih =>
    rw [List.dropWhile_cons] at h
    by_cases hpa : p a = true
    · exact ih (by simpa [hpa] using h)
    · simp [hpa] at h
      subst h
      simpa using hpa

theorem trimEnds_eq_self (l : Str) (c d : Char)
    (h1 : l.head? = some c) (hc : wsChar c = false)
    (h2 : l.getLast? = some d) (hd : wsChar d = false) : trimEnds l = l := by
  unfold trimEnds
  rw [dropWhile_head_false wsChar l c h1 hc]
  rw [dropWhile_head_false wsChar l.reverse d
    (by rw [List.head?_reverse]; exact h2) hd]
  exact List.reverse_reverse l

theorem trimEnds_all_eq_self (l : Str) (h : ∀ c ∈ l, wsChar c = false) :
    trimEnds l = l := by
  cases hl : l with
  | nil => rfl
  | cons a t =>
    subst hl
    refine trimEnds_eq_self _ a ((a :: t).getLast (by simp)) rfl
      (h a (by simp)) (List.getLast?_eq_getLast _ (by simp)) ?_
    exact h _ (List.getLast_mem _)

theorem dropSpaces_append (w l : Str) (h : w.all wsChar = true) :
    dropSpaces (w ++ l) = dropSpaces l := by
  induction w with
  | nil => rfl
  | cons c t ih =>
    simp only [List.all_cons, Bool.and_eq_true] at h
    simp only [List.cons_append, dropSpaces, List.dropWhile_cons, h.1, if_true]
    exact ih h.2

theorem dropSpaces_not_ws (l : Str) (c : Char) (h : l.head? = some c)
    (hc : wsChar c = false) : dropSpaces l = l :=
  dropWhile_head_false wsChar l c h hc

theorem takeWhile_append_all {α : Type} (p : α → Bool) (ds l : List α)
    (hds : ds.all p = true)
    (hl : ∀ c, l.head? = some c → p c = false) :
    (ds ++ l).takeWhile p = ds ∧ (ds ++ l).dropWhile p = l := by
  induction ds with
  | nil =>
    constructor
    · cases l with
      | nil => rfl
      | cons a t => simp [List.takeWhile_cons, hl a rfl]
    · cases l with
      | nil => rfl
      | cons a t => simp [List.dropWhile_cons, hl a rfl]
  | cons c t ih =>
    simp only [List.all_cons, Bool.and_eq_true] at hds
    constructor
    · simp [List.cons_append, List.takeWhile_cons, hds.1, (ih hds.2).1]
    · simp [List.cons_append, List.dropWhile_cons, hds.1, (ih hds.2).2]

theorem parseChannel_append (ds l : Str)
    (h1 : ds ≠ []) (h2 : ds.length ≤ 3) (h3 : ds.all isDigitChar = true)
    (hl : ∀ c, l.head? = some c → isDigitChar c = false) :
    parseChannel (ds ++ l) = some (digitsToNat ds, l) := by
  have h := takeWhile_append_all isDigitChar ds l h3 hl
  unfold parseChannel
  rw [h.1, h.2, if_pos]
  exact ⟨Nat.one_le_iff_ne_zero.mpr (by simpa using h1), h2⟩

theorem foldl_digits_lt (ds : Str) : ∀ acc : Nat, ds.all isDigitChar = true →
    ds.foldl (fun n c => n * 10 + (c.toNat - 48)) acc < (acc + 1) * 10 ^ ds.length := by
  induction ds with
  | nil =>
    intro acc _
    simp
  | cons c t ih =>
    intro acc h
    simp only [List.all_cons, Bool.and_eq_true] at h
    simp only [List.foldl_cons, List.length_cons]
    calc t.foldl (fun n c => n * 10 + (c.toNat - 48)) (acc * 10 + (c.toNat - 48))
        < (acc * 10 + (c.toNat - 48) + 1) * 10 ^ t.length := ih _ h.2
      _ ≤ (acc + 1) * 10 ^ (t.length + 1) := by
          have hc := digit_val_le c h.1
          have hmul : acc * 10 + (c.toNat - 48) + 1 ≤ (acc + 1) * 10 := by omega
          calc (acc * 10 + (c.toNat - 48) + 1) * 10 ^ t.length
              ≤ ((acc + 1) * 10) * 10 ^ t.length :=
                Nat.mul_le_mul_right _ hmul
            _ = (acc + 1) * 10 ^ (t.length + 1) := by ring

theorem digitsToNat_lt (ds : Str) (h : ds.all isDigitChar = true) :
    digitsToNat ds < 10 ^ ds.length := by
  have := foldl_digits_lt ds 0 h
  simpa [digitsToNat] using this

theorem head_not_digit_of_ws_cons (w : Str) (hw : w.all wsChar = true)
    (c0 : Char) (hc0 : isDigitChar c0 = false) (R : Str) :
    ∀ c, (w ++ (c0 :: R)).head? = some c → isDigitChar c = false := by
  cases w with
  | nil =>
    intro c h
    simp only [List.nil_append, List.head?_cons, Option.some.injEq] at h
    subst h
    exact hc0
  | cons a t =>
    intro c h
    simp only [List.cons_append, List.head?_cons, Option.some.injEq] at h
    subst h
    simp only [List.all_cons, Bool.and_eq_true] at hw
    exact ws_not_digit _ hw.1

theorem dropSpaces_all_not (l : Str) (h : ∀ c ∈ l, wsChar c = false) :
    dropSpaces l = l := by
  cases l with
  | nil => rfl
  | cons a t => exact dropSpaces_not_ws _ a rfl (h a (by simp))

theorem expectComma_ws (w R : Str) (hw : w.all wsChar = true) :
    expectComma (w ++ (',' :: R)) = some R := by
  unfold expectComma
  rw [dropSpaces_append w _ hw, dropSpaces_not_ws (',' :: R) ',' rfl (by decide)]
  rfl

theorem expectClose_ws (w : Str) (hw : w.all wsChar = true) :
    expectClose (w ++ [')']) = true := by
  unfold expectClose
  rw [dropSpaces_append w _ hw]
  decide

theorem expectClose_append (r : Str) (h : ∀ c ∈ r, wsChar c = false) :
    expectClose (r ++ [')']) = decide (r = []) := by
  unfold expectClose
  rw [dropSpaces_all_not (r ++ [')'])]
  · rw [decide_eq_decide]
    exact List.append_left_eq_self
  · intro c hc
    rcases List.mem_append.mp hc with hc | hc
    · exact h c hc
    · simp only [List.mem_singleton] at hc
      subst hc
      decide

theorem stripChars_rgb (X : Str) :
    stripChars ['r', 'g', 'b', '('] ('r' :: 'g' :: 'b' :: '(' :: X) = some X := rfl

theorem stripChars_rgba (X : Str) :
    stripChars ['r', 'g', 'b', 'a', '('] ('r' :: 'g' :: 'b' :: 'a' :: '(' :: X) = some X := rfl

theorem stripChars_rgb_of_rgba (X : Str) :
    stripChars ['r', 'g', 'b', '('] ('r' :: 'g' :: 'b' :: 'a' :: X) = none := rfl

theorem stripChars_rgb_hash (X : Str) :
    stripChars ['r', 'g', 'b', '('] ('#' :: X) = none := rfl

theorem stripChars_rgba_hash (X : Str) :
    stripChars ['r', 'g', 'b', 'a', '('] ('#' :: X) = none := rfl

theorem hexMatch_cons_ne (c : Char) (l : Str) (hc : ¬ (c = '#')) :
    hexMatch (c :: l) = false := by
  simp [hexMatch, hc]

theorem dropSpaces_digits (rs R : Str) (h1 : rs ≠ [])
    (h3 : rs.all isDigitChar = true) :
    dropSpaces (rs ++ R) = rs ++ R := by
  cases rs with
  | nil => exact absurd rfl h1
  | cons c t =>
    simp only [List.all_cons, Bool.and_eq_true] at h3
    exact dropSpaces_not_ws _ c rfl (digit_not_ws c h3.1)

theorem trimEnds_cons_concat (c : Char) (hc : wsChar c = false) (l : Str)
    (d : Char) (hd : wsChar d = false) :
    trimEnds (c :: (l ++ [d])) = c :: (l ++ [d]) := by
  refine trimEnds_eq_self _ c d rfl hc ?_ hd
  exact List.getLast?_concat (c :: l)

theorem rgbMatch_spec (w1 w2 w3 w4 w5 w6 rs gs bs T1 T2 T3 T4 T5 T6 : Str)
    (h1 : T1 = w1 ++ (rs ++ T2)) (h2 : T2 = w2 ++ (',' :: T3))
    (h3 : T3 = w3 ++ (gs ++ T4)) (h4 : T4 = w4 ++ (',' :: T5))
    (h5 : T5 = w5 ++ (bs ++ T6)) (h6 : T6 = w6 ++ [')'])
    (hw1 : w1.all wsChar = true) (hw2 : w2.all wsChar = true)
    (hw3 : w3.all wsChar = true) (hw4 : w4.all wsChar = true)
    (hw5 : w5.all wsChar = true) (hw6 : w6.all wsChar = true)
    (hr : chanOK rs) (hg : chanOK gs) (hb : chanOK bs) :
    rgbMatch ('r' :: 'g' :: 'b' :: '(' :: T1)
      = some (digitsToNat rs, digitsToNat gs, digitsToNat bs) := by
  obtain ⟨hr1, hr2, hr3⟩ := hr
  obtain ⟨hg1, hg2, hg3⟩ := hg
  obtain ⟨hb1, hb2, hb3⟩ := hb
  have hl1 : ∀ c, T2.head? = some c → isDigitChar c = false := by
    rw [h2]; exact head_not_digit_of_ws_cons w2 hw2 ',' (by decide) T3
  have hl2 : ∀ c, T4.head? = some c → isDigitChar c = false := by
    rw [h4]; exact head_not_digit_of_ws_cons w4 hw4 ',' (by decide) T5
  have hl3 : ∀ c, T6.head? = some c → isDigitChar c = false := by
    rw [h6]; exact head_not_digit_of_ws_cons w6 hw6 ')' (by decide) []
  unfold rgbMatch
  rw [stripChars_rgb]
  simp only [Option.some_bind]
  rw [h1, dropSpaces_append w1 _ hw1, dropSpaces_digits rs _ hr1 hr3]
  simp only [parseChannel_append rs T2 hr1 hr2 hr3 hl1, Option.some_bind]
  rw [h2]
  simp only [expectComma_ws w2 T3 hw2, Option.some_bind]
  rw [h3, dropSpaces_append w3 _ hw3, dropSpaces_digits gs _ hg1 hg3]
  simp only [parseChannel_append gs T4 hg1 hg2 hg3 hl2, Option.some_bind]
  rw [h4]
  simp only [expectComma_ws w4 T5 hw4, Option.some_bind]
  rw [h5, dropSpaces_append w5 _ hw5, dropSpaces_digits bs _ hb1 hb3]
  simp only [parseChannel_append bs T6 hb1 hb2 hb3 hl3, Option.some_bind]
  rw [h6]
  simp only [expectClose_ws w6 hw6, if_true]

/-- C2: for every input of the form rgb(r, g, b) whose channels are
written with 1 to 3 decimal digits and with arbitrary whitespace inside
the parentheses and around the commas, isValidColor returns true exactly
when all three parsed integers are at most 255 (they are at least 0 by
syntax). -/
theorem c2_rgb_range
    (w1 w2 w3 w4 w5 w6 : Str)
    (hw1 : w1.all wsChar = true) (hw2 : w2.all wsChar = true)
    (hw3 : w3.all wsChar = true) (hw4 : w4.all wsChar = true)
    (hw5 : w5.all wsChar = true) (hw6 : w6.all wsChar = true)
    (rs gs bs : Str) (hr : chanOK rs) (hg : chanOK gs) (hb : chanOK bs) :
    isValidColor (['r', 'g', 'b', '('] ++ w1 ++ rs ++ w2 ++ [','] ++ w3 ++ gs ++ w4 ++ [','] ++ w5 ++ bs ++ w6 ++ [')'])
      = (decide (digitsToNat rs ≤ 255) && decide (digitsToNat gs ≤ 255)
          && decide (digitsToNat bs ≤ 255)) := by
  have hs2 : ['r', 'g', 'b', '('] ++ w1 ++ rs ++ w2 ++ [','] ++ w3 ++ gs ++ w4 ++ [','] ++ w5 ++ bs ++ w6 ++ [')']
      = 'r' :: 'g' :: 'b' :: '(' :: (w1 ++ (rs ++ (w2 ++ (',' :: (w3 ++ (gs ++ (w4 ++ (',' :: (w5 ++ (bs ++ (w6 ++ [')']))))))))))) := by
    simp [List.append_assoc]
  rw [hs2]
  have hwrap : 'r' :: 'g' :: 'b' :: '(' :: (w1 ++ (rs ++ (w2 ++ (',' :: (w3 ++ (gs ++ (w4 ++ (',' :: (w5 ++ (bs ++ (w6 ++ [')'])))))))))))
      = 'r' :: ((['g', 'b', '('] ++ w1 ++ rs ++ w2 ++ [','] ++ w3 ++ gs ++ w4 ++ [','] ++ w5 ++ bs ++ w6) ++ [')']) := by
    simp [List.append_assoc]
  have htrim : trimEnds ('r' :: 'g' :: 'b' :: '(' :: (w1 ++ (rs ++ (w2 ++ (',' :: (w3 ++ (gs ++ (w4 ++ (',' :: (w5 ++ (bs ++ (w6 ++ [')']))))))))))))
      = 'r' :: 'g' :: 'b' :: '(' :: (w1 ++ (rs ++ (w2 ++ (',' :: (w3 ++ (gs ++ (w4 ++ (',' :: (w5 ++ (bs ++ (w6 ++ [')']))))))))))) := by
    rw [hwrap]
    exact trimEnds_cons_concat 'r' (by decide) _ ')' (by decide)
  have hrgb := rgbMatch_spec w1 w2 w3 w4 w5 w6 rs gs bs _ _ _ _ _ _
    rfl rfl rfl rfl rfl rfl hw1 hw2 hw3 hw4 hw5 hw6 hr hg hb
  simp only [isValidColor, htrim]
  rw [if_neg (by simp), if_neg ?hhex, hrgb]
  case hhex =>
    rw [hexMatch_cons_ne 'r' _ (by decide)]
    simp

theorem dropSpaces_digitOrDot (a R : Str) (h1 : a ≠ [])
    (h3 : a.all digitOrDot = true) :
    dropSpaces (a ++ R) = a ++ R := by
  cases a with
  | nil => exact absurd rfl h1
  | cons c t =>
    simp only [List.all_cons, Bool.and_eq_true] at h3
    exact dropSpaces_not_ws _ c rfl (digitOrDot_not_ws c h3.1)

theorem takeWhile_append_single {α : Type} (p : α → Bool) (l : List α)
    (x : α) (hx : p x = false) :
    (l ++ [x]).takeWhile p = l.takeWhile p
      ∧ (l ++ [x]).dropWhile p = l.dropWhile p ++ [x] := by
  induction l with
  | nil => simp [List.takeWhile_cons, List.dropWhile_cons, hx]
  | cons a t ih =>
    by_cases hpa : p a = true
    · simp [List.cons_append, List.takeWhile_cons, List.dropWhile_cons, hpa,
        ih.1, ih.2]
    · simp [List.cons_append, List.takeWhile_cons, List.dropWhile_cons, hpa]

theorem rgbaMatch_spec (w1 w2 w3 w4 w5 w6 rs gs bs T1 T2 T3 T4 T5 T6 T7 : Str)
    (h1 : T1 = w1 ++ (rs ++ T2)) (h2 : T2 = w2 ++ (',' :: T3))
    (h3 : T3 = w3 ++ (gs ++ T4)) (h4 : T4 = w4 ++ (',' :: T5))
    (h5 : T5 = w5 ++ (bs ++ T6)) (h6 : T6 = w6 ++ (',' :: T7))
    (hw1 : w1.all wsChar = true) (hw2 : w2.all wsChar = true)
    (hw3 : w3.all wsChar = true) (hw4 : w4.all wsChar = true)
    (hw5 : w5.all wsChar = true) (hw6 : w6.all wsChar = true)
    (hr : chanOK rs) (hg : chanOK gs) (hb : chanOK bs) :
    rgbaMatch ('r' :: 'g' :: 'b' :: 'a' :: '(' :: T1)
      = (alphaMatch (dropSpaces T7)).bind (fun q =>
          some (digitsToNat rs, digitsToNat gs, digitsToNat bs, q)) := by
  obtain ⟨hr1, hr2, hr3⟩ := hr
  obtain ⟨hg1, hg2, hg3⟩ := hg
  obtain ⟨hb1, hb2, hb3⟩ := hb
  have hl1 : ∀ c, T2.head? = some c → isDigitChar c = false := by
    rw [h2]; exact head_not_digit_of_ws_cons w2 hw2 ',' (by decide) T3
  have hl2 : ∀ c, T4.head? = some c → isDigitChar c = false := by
    rw [h4]; exact head_not_digit_of_ws_cons w4 hw4 ',' (by decide) T5
  have hl3 : ∀ c, T6.head? = some c → isDigitChar c = false := by
    rw [h6]; exact head_not_digit_of_ws_cons w6 hw6 ',' (by decide) T7
  unfold rgbaMatch
  rw [stripChars_rgba]
  simp only [Option.some_bind]
  rw [h1, dropSpaces_append w1 _ hw1, dropSpaces_digits rs _ hr1 hr3]
  simp only [parseChannel_append rs T2 hr1 hr2 hr3 hl1, Option.some_bind]
  rw [h2]
  simp only [expectComma_ws w2 T3 hw2, Option.some_bind]
  rw [h3, dropSpaces_append w3 _ hw3, dropSpaces_digits gs _ hg1 hg3]
  simp only [parseChannel_append gs T4 hg1 hg2 hg3 hl2, Option.some_bind]
  rw [h4]
  simp only [expectComma_ws w4 T5 hw4, Option.some_bind]
  rw [h5, dropSpaces_append w5 _ hw5, dropSpaces_digits bs _ hb1 hb3]
  simp only [parseChannel_append bs T6 hb1 hb2 hb3 hl3, Option.some_bind]
  rw [h6]
  simp only [expectComma_ws w6 T7 hw6, Option.some_bind]

theorem parseFrac_cons_dot (X : Str) :
    parseFrac ('.' :: X)
      = (if (X.takeWhile isDigitChar).length = 0 then none
         else some ((digitsToNat (X.takeWhile isDigitChar),
                     (X.takeWhile isDigitChar).length),
                    X.dropWhile isDigitChar)) := rfl

theorem parseFrac_cons_ne (c : Char) (X : Str) (hc : ¬ (c = '.')) :
    parseFrac (c :: X) = none := by
  simp [parseFrac, hc]

theorem parseFrac_fracTail (a2 : Str) (hf : fracTail a2 = true) :
    parseFrac (a2 ++ [')'])
      = some ((digitsToNat a2.tail, a2.tail.length), [')']) := by
  cases a2 with
  | nil => simp [fracTail] at hf
  | cons c ds =>
    simp only [fracTail, Bool.and_eq_true, decide_eq_true_eq] at hf
    obtain ⟨⟨hc, hne⟩, hds⟩ := hf
    subst hc
    have h := takeWhile_append_all isDigitChar ds [')'] hds
      (fun x hx => by
        simp only [List.head?_cons, Option.some.injEq] at hx
        subst hx
        decide)
    rw [List.cons_append, parseFrac_cons_dot, h.1, h.2,
      if_neg (by simpa using hne)]
    simp

theorem parseFrac_not_fracTail (a2 : Str) (ha2 : a2.all digitOrDot = true)
    (hf : fracTail a2 = false) (q : Nat × Nat) (r2 : Str)
    (h : parseFrac (a2 ++ [')']) = some (q, r2)) : expectClose r2 = false := by
  cases a2 with
  | nil =>
    rw [List.nil_append] at h
    rw [show parseFrac [')'] = none from rfl] at h
    cases h
  | cons c ds =>
    rw [List.cons_append] at h
    by_cases hc : c = '.'
    case neg => rw [parseFrac_cons_ne c _ hc] at h; cases h
    case pos =>
      subst hc
      rw [parseFrac_cons_dot] at h
      have hsplit := takeWhile_append_single isDigitChar ds ')' (by decide)
      rw [hsplit.1, hsplit.2] at h
      by_cases h0 : (ds.takeWhile isDigitChar).length = 0
      · rw [if_pos h0] at h; cases h
      · rw [if_neg h0] at h
        simp only [Option.some.injEq, Prod.mk.injEq] at h
        obtain ⟨hq, hr2⟩ := h
        subst hr2
        have hds_ne : ds ≠ [] := by
          intro hnil
          subst hnil
          simp at h0
        have hnotall : ¬ (ds.all isDigitChar = true) := by
          intro hall
          have hft : fracTail ('.' :: ds) = true := by
            simp [fracTail, hds_ne, hall]
          rw [hft] at hf
          cases hf
        have hdrop_ne : ds.dropWhile isDigitChar ≠ [] := by
          intro hnil
          exact hnotall (List.all_eq_true.mpr
            (fun x hx => List.dropWhile_eq_nil_iff.mp hnil x hx))
        have hchars : ∀ x ∈ ds.dropWhile isDigitChar, wsChar x = false := by
          intro x hx
          have hxds : x ∈ ds := (List.dropWhile_sublist _).subset hx
          have hall := ha2
          simp only [List.all_cons, Bool.and_eq_true] at hall
          exact digitOrDot_not_ws x (List.all_eq_true.mp hall.2 x hxds)
        rw [expectClose_append (ds.dropWhile isDigitChar) hchars]
        simp [hdrop_ne]

theorem alphaMatch_zero (rest : Str) :
    alphaMatch ('0' :: rest)
      = (if expectClose rest then some (0, 0)
         else
           match parseFrac rest with
           | some (q, rest2) => if expectClose rest2 then some q else none
           | none => none) := rfl

theorem alphaMatch_one (rest : Str) :
    alphaMatch ('1' :: rest)
      = (if expectClose rest then some (1, 0) else none) := rfl

theorem alphaMatch_other (c : Char) (rest : Str) (hc0 : ¬ (c = '0'))
    (hc1 : ¬ (c = '1')) :
    alphaMatch (c :: rest)
      = (match parseFrac (c :: rest) with
         | some (q, rest2) => if expectClose rest2 then some q else none
         | none => none) := by
  simp [alphaMatch, hc0, hc1]

theorem alphaTokenOK_cons (c : Char) (a2 : Str) :
    alphaTokenOK (c :: a2)
      = (decide (c :: a2 = ['0']) || decide (c :: a2 = ['1']) ||
         (if c = '0' then fracTail a2 else fracTail (c :: a2))) := rfl

theorem alphaMatch_cases (a : Str) (ha : a.all digitOrDot = true) :
    (alphaMatch (a ++ [')']) = none ∧ alphaTokenOK a = false)
    ∨ (∃ n k : Nat, n ≤ 10 ^ k
        ∧ alphaMatch (a ++ [')']) = some (n, k) ∧ alphaTokenOK a = true) := by
  cases a with
  | nil => exact Or.inl ⟨by decide, by decide⟩
  | cons c a2 =>
    have hc : digitOrDot c = true ∧ a2.all digitOrDot = true := by
      simpa [List.all_cons] using ha
    have hclose : expectClose (a2 ++ [')']) = decide (a2 = []) :=
      expectClose_append a2
        (fun x hx => digitOrDot_not_ws x (List.all_eq_true.mp hc.2 x hx))
    rw [List.cons_append]
    by_cases hc0 : c = '0'
    · subst hc0
      rw [alphaMatch_zero, hclose]
      by_cases ha2 : a2 = []
      · subst ha2
        refine Or.inr ⟨0, 0, by decide, ?_, by decide⟩
        simp
      · rw [show decide (a2 = []) = false by simp [ha2]]
        simp only [Bool.false_eq_true, if_false]
        by_cases hf : fracTail a2 = true
        · cases a2 with
          | nil => exact absurd rfl ha2
          | cons c2 ds =>
            have hf2 := hf
            simp only [fracTail, Bool.and_eq_true, decide_eq_true_eq] at hf2
            obtain ⟨⟨hc2, hne⟩, hds⟩ := hf2
            subst hc2
            refine Or.inr ⟨digitsToNat ds, ds.length,
              Nat.le_of_lt (digitsToNat_lt ds hds), ?_, ?_⟩
            · rw [parseFrac_fracTail ('.' :: ds) hf]
              simp [show expectClose [')'] = true from rfl]
            · simp [alphaTokenOK_cons, hf]
        · have hf' : fracTail a2 = false := by simpa using hf
          refine Or.inl ⟨?_, ?_⟩
          · cases hpf : parseFrac (a2 ++ [')']) with
            | none => simp
            | some pr =>
              obtain ⟨q, r2⟩ := pr
              have hec := parseFrac_not_fracTail a2 hc.2 hf' q r2 hpf
              simp [hec]
          · simp [alphaTokenOK_cons, ha2, hf']
    · by_cases hc1 : c = '1'
      · subst hc1
        rw [alphaMatch_one, hclose]
        by_cases ha2 : a2 = []
        · subst ha2
          refine Or.inr ⟨1, 0, by decide, ?_, by decide⟩
          simp
        · rw [show decide (a2 = []) = false by simp [ha2]]
          simp only [Bool.false_eq_true, if_false]
          refine Or.inl ⟨by trivial, ?_⟩
          simp [alphaTokenOK_cons, ha2, fracTail]
      · rw [alphaMatch_other c _ hc0 hc1,
            show c :: (a2 ++ [')']) = (c :: a2) ++ [')'] from rfl]
        by_cases hf : fracTail (c :: a2) = true
        · have hf2 := hf
          simp only [fracTail, Bool.and_eq_true, decide_eq_true_eq] at hf2
          obtain ⟨⟨hcdot, hne⟩, hds⟩ := hf2
          subst hcdot
          refine Or.inr ⟨digitsToNat a2, a2.length,
            Nat.le_of_lt (digitsToNat_lt a2 hds), ?_, ?_⟩
          · rw [parseFrac_fracTail ('.' :: a2) hf]
            simp [show expectClose [')'] = true from rfl]
          · simp [alphaTokenOK_cons, hc0, hc1, hf]
        · have hf' : fracTail (c :: a2) = false := by simpa using hf
          refine Or.inl ⟨?_, ?_⟩
          · cases hpf : parseFrac ((c :: a2) ++ [')']) with
            | none => simp
            | some pr =>
              obtain ⟨q, r2⟩ := pr
              have hec := parseFrac_not_fracTail (c :: a2) ha hf' q r2 hpf
              simp [hec]
          · simp [alphaTokenOK_cons, hc0, hc1, hf']

/-- C1 (amended): for every input of the form rgba(r, g, b, a) whose
three channels are written with 1 to 3 digits and have values at most
255, and whose alpha text consists of digits and dots, isValidColor
returns true exactly when the alpha token is the literal 0, the literal
1, or a dot followed by one or more digits with an optional leading 0
(so both 0.5 and .5 are accepted, and the value of every accepted token
lies in the closed interval from 0 to 1); a malformed alpha such as 1.5
is rejected. -/
theorem c1_rgba_alpha
    (rs gs bs : Str) (hr : chanOK rs) (hg : chanOK gs) (hb : chanOK bs)
    (hr255 : digitsToNat rs ≤ 255) (hg255 : digitsToNat gs ≤ 255)
    (hb255 : digitsToNat bs ≤ 255)
    (a : Str) (ha : a ≠ []) (hda : a.all digitOrDot = true) :
    isValidColor (['r', 'g', 'b', 'a', '('] ++ rs ++ [',', ' '] ++ gs ++ [',', ' '] ++ bs ++ [',', ' '] ++ a ++ [')']) = alphaTokenOK a := by
  have hs2 : ['r', 'g', 'b', 'a', '('] ++ rs ++ [',', ' '] ++ gs ++ [',', ' '] ++ bs ++ [',', ' '] ++ a ++ [')']
      = 'r' :: 'g' :: 'b' :: 'a' :: '(' :: (rs ++ (',' :: (' ' :: (gs ++ (',' :: (' ' :: (bs ++ (',' :: (' ' :: (a ++ [')'])))))))))) := by
    simp [List.append_assoc]
  rw [hs2]
  have hwrap : 'r' :: 'g' :: 'b' :: 'a' :: '(' :: (rs ++ (',' :: (' ' :: (gs ++ (',' :: (' ' :: (bs ++ (',' :: (' ' :: (a ++ [')']))))))))))
      = 'r' :: ((['g', 'b', 'a', '('] ++ rs ++ [',', ' '] ++ gs ++ [',', ' '] ++ bs ++ [',', ' '] ++ a) ++ [')']) := by
    simp [List.append_assoc]
  have htrim : trimEnds ('r' :: 'g' :: 'b' :: 'a' :: '(' :: (rs ++ (',' :: (' ' :: (gs ++ (',' :: (' ' :: (bs ++ (',' :: (' ' :: (a ++ [')'])))))))))))
      = 'r' :: 'g' :: 'b' :: 'a' :: '(' :: (rs ++ (',' :: (' ' :: (gs ++ (',' :: (' ' :: (bs ++ (',' :: (' ' :: (a ++ [')'])))))))))) := by
    rw [hwrap]
    refine trimEnds_cons_concat 'r' (by decide) _ ')' (by decide)
  have hrgbnone : rgbMatch ('r' :: 'g' :: 'b' :: 'a' :: '(' :: (rs ++ (',' :: (' ' :: (gs ++ (',' :: (' ' :: (bs ++ (',' :: (' ' :: (a ++ [')']))))))))))) = none := by
    unfold rgbMatch
    rw [stripChars_rgb_of_rgba]
    rfl
  have hrgba := rgbaMatch_spec [] [] [' '] [] [' '] [] rs gs bs
    (rs ++ (',' :: (' ' :: (gs ++ (',' :: (' ' :: (bs ++ (',' :: (' ' :: (a ++ [')'])))))))))) (',' :: (' ' :: (gs ++ (',' :: (' ' :: (bs ++ (',' :: (' ' :: (a ++ [')']))))))))) (' ' :: (gs ++ (',' :: (' ' :: (bs ++ (',' :: (' ' :: (a ++ [')'])))))))) (',' :: (' ' :: (bs ++ (',' :: (' ' :: (a ++ [')'])))))) (' ' :: (bs ++ (',' :: (' ' :: (a ++ [')']))))) (',' :: (' ' :: (a ++ [')']))) (' ' :: (a ++ [')']))
    (by simp) (by simp) (by simp) (by simp) (by simp) (by simp)
    (by decide) (by decide) (by decide) (by decide) (by decide) (by decide)
    hr hg hb
  have hdsp : dropSpaces (' ' :: (a ++ [')'])) = a ++ [')'] := by
    rw [show (' ' :: (a ++ [')']) : Str) = [' '] ++ (a ++ [')']) from by simp,
      dropSpaces_append [' '] _ (by decide),
      dropSpaces_digitOrDot a _ ha hda]
  simp only [isValidColor, htrim]
  rw [if_neg (by simp), if_neg ?hhex]
  case hhex =>
    rw [hexMatch_cons_ne 'r' _ (by decide)]
    simp
  simp only [hrgbnone, hrgba, hdsp]
  rcases alphaMatch_cases a hda with ⟨hnone, htok⟩ | ⟨n, k, hbound, hsome, htok⟩
  · simp only [hnone, Option.none_bind, htok]
  · simp only [hsome, Option.some_bind, htok]
    simp [hr255, hg255, hb255, hbound]

/-- C1 counterexample: the alpha token may omit the leading zero, so
rgba(0, 0, 0, .5) is accepted by isValidColor, contradicting the claim
that it must be rejected. -/
theorem c1_counterexample : isValidColor (("rgba(0, 0, 0, .5)").data) = true := by
  decide

/-- C1 witness: the amended theorem applied at two concrete inputs, one
accepted alpha and the malformed alpha 1.5. -/
theorem c1_witness :
    isValidColor (("rgba(0, 0, 0, 0.5)").data) = true
      ∧ isValidColor (("rgba(0, 0, 0, 1.5)").data) = false := by
  constructor
  · have h := c1_rgba_alpha ['0'] ['0'] ['0'] (by decide) (by decide)
      (by decide) (by decide) (by decide) (by decide)
      ['0', '.', '5'] (by decide) (by decide)
    exact (by decide : (("rgba(0, 0, 0, 0.5)").data)
        = ['r', 'g', 'b', 'a', '('] ++ ['0'] ++ [',', ' '] ++ ['0'] ++ [',', ' ']
          ++ ['0'] ++ [',', ' '] ++ ['0', '.', '5'] ++ [')']) ▸ h.trans (by decide)
  · have h := c1_rgba_alpha ['0'] ['0'] ['0'] (by decide) (by decide)
      (by decide) (by decide) (by decide) (by decide)
      ['1', '.', '5'] (by decide) (by decide)
    exact (by decide : (("rgba(0, 0, 0, 1.5)").data)
        = ['r', 'g', 'b', 'a', '('] ++ ['0'] ++ [',', ' '] ++ ['0'] ++ [',', ' ']
          ++ ['0'] ++ [',', ' '] ++ ['1', '.', '5'] ++ [')']) ▸ h.trans (by decide)

/-- C2 witness: the theorem applied at rgb(256, 0, 0) and rgb(255, 10, 0). -/
theorem c2_witness :
    isValidColor (("rgb(256, 0, 0)").data) = false
      ∧ isValidColor (("rgb(255, 10, 0)").data) = true := by
  constructor
  · have h := c2_rgb_range [] [] [' '] [] [' '] []
      (by decide) (by decide) (by decide) (by decide) (by decide) (by decide)
      ['2', '5', '6'] ['0'] ['0'] (by decide) (by decide) (by decide)
    exact (by decide : (("rgb(256, 0, 0)").data)
        = ['r', 'g', 'b', '('] ++ [] ++ ['2', '5', '6'] ++ [] ++ [','] ++ [' ']
          ++ ['0'] ++ [] ++ [','] ++ [' '] ++ ['0'] ++ [] ++ [')'])
      ▸ h.trans (by decide)
  · have h := c2_rgb_range [] [] [' '] [] [' '] []
      (by decide) (by decide) (by decide) (by decide) (by decide) (by decide)
      ['2', '5', '5'] ['1', '0'] ['0'] (by decide) (by decide) (by decide)
    exact (by decide : (("rgb(255, 10, 0)").data)
        = ['r', 'g', 'b', '('] ++ [] ++ ['2', '5', '5'] ++ [] ++ [','] ++ [' ']
          ++ ['1', '0'] ++ [] ++ [','] ++ [' '] ++ ['0'] ++ [] ++ [')'])
      ▸ h.trans (by decide)

/-- C8: a string whose trimmed form starts with a hash sign is accepted
exactly when the hash sign is followed by exactly 6 or exactly 3
hexadecimal digits and nothing else; the uppercase and lowercase forms
of every 6-digit hexadecimal string are both accepted; and hex-like
strings with a missing hash or with 4 or 5 digits are rejected. -/
theorem c8_hex_spec :
    (∀ s : Str, (trimEnds s).head? = some '#' →
      (isValidColor s = true ↔
        (((trimEnds s).tail.length = 6 ∨ (trimEnds s).tail.length = 3)
          ∧ (trimEnds s).tail.all isHexDigitChar = true)))
    ∧ (∀ ds : Str, ds.length = 6 → ds.all isHexDigitChar = true →
        isValidColor ('#' :: ds.map upperHexChar) = true
          ∧ isValidColor ('#' :: ds.map lowerHexChar) = true)
    ∧ (isValidColor (("fff").data) = false
        ∧ isValidColor (("#ffff").data) = false
        ∧ isValidColor (("#fffff").data) = false) := by
  refine ⟨?part1, ?part2, by decide, by decide, by decide⟩
  case part1 =>
    intro s hhash
    cases ht : trimEnds s with
    | nil => rw [ht] at hhash; cases hhash
    | cons c rest =>
      rw [ht] at hhash
      simp only [List.head?_cons, Option.some.injEq] at hhash
      subst hhash
      have hrgbn : rgbMatch ('#' :: rest) = none := by
        unfold rgbMatch
        rw [stripChars_rgb_hash]
        rfl
      have hrgban : rgbaMatch ('#' :: rest) = none := by
        unfold rgbaMatch
        rw [stripChars_rgba_hash]
        rfl
      simp only [isValidColor, ht, List.tail_cons]
      rw [if_neg (by simp)]
      simp only [hrgbn, hrgban]
      by_cases hm : hexMatch ('#' :: rest) = true
      · rw [if_pos hm]
        simp only [hexMatch, List.all_eq_true, Bool.and_eq_true,
          Bool.or_eq_true, decide_eq_true_eq] at hm
        constructor
        · intro _
          exact ⟨hm.1.2, List.all_eq_true.mpr hm.2⟩
        · intro _
          rfl
      · rw [if_neg hm]
        simp only [Bool.false_eq_true, false_iff]
        rintro ⟨hlen, hall⟩
        apply hm
        rcases hlen with hlen | hlen <;>
          simp [hexMatch, hall, hlen]
  case part2 =>
    intro ds hlen hall
    constructor
    · have hall2 : ∀ c ∈ ds.map upperHexChar, isHexDigitChar c = true := by
        intro c hc
        obtain ⟨d, hd, rfl⟩ := List.mem_map.mp hc
        exact hex_upper d (List.all_eq_true.mp hall d hd)
      have htr : trimEnds ('#' :: ds.map upperHexChar)
          = '#' :: ds.map upperHexChar := by
        refine trimEnds_all_eq_self _ ?_
        intro c hc
        rcases List.mem_cons.mp hc with hc | hc
        · subst hc; decide
        · exact hex_not_ws c (hall2 c hc)
      have hus : (ds.map upperHexChar).all isHexDigitChar = true :=
        List.all_eq_true.mpr hall2
      have hhm : hexMatch ('#' :: ds.map upperHexChar) = true := by
        simp [hexMatch, List.length_map, hlen, hus]
      simp only [isValidColor, htr]
      rw [if_neg (by simp), if_pos hhm]
    · have hall2 : ∀ c ∈ ds.map lowerHexChar, isHexDigitChar c = true := by
        intro c hc
        obtain ⟨d, hd, rfl⟩ := List.mem_map.mp hc
        exact hex_lower d (List.all_eq_true.mp hall d hd)
      have htr : trimEnds ('#' :: ds.map lowerHexChar)
          = '#' :: ds.map lowerHexChar := by
        refine trimEnds_all_eq_self _ ?_
        intro c hc
        rcases List.mem_cons.mp hc with hc | hc
        · subst hc; decide
        · exact hex_not_ws c (hall2 c hc)
      have hus : (ds.map lowerHexChar).all isHexDigitChar = true :=
        List.all_eq_true.mpr hall2
      have hhm : hexMatch ('#' :: ds.map lowerHexChar) = true := by
        simp [hexMatch, List.length_map, hlen, hus]
      simp only [isValidColor, htr]
      rw [if_neg (by simp), if_pos hhm]

/-- C8 witness: the first part applied at #abc, the second at a1b2c3. -/
theorem c8_witness :
    isValidColor (("#abc").data) = true
      ∧ isValidColor ('#' :: (['a', '1', 'b', '2', 'c', '3'].map upperHexChar))
          = true := by
  constructor
  · exact (c8_hex_spec.1 (("#abc").data) (by decide)).mpr (by decide)
  · exact (c8_hex_spec.2.1 ['a', '1', 'b', '2', 'c', '3'] (by decide)
      (by decide)).1

/-- C3: updateKeywords processes the comma-split trimmed tokens in their
original order; a removal token deletes its target when present and is a
no-op when absent, an addition token is appended only when not already
present; hence reconciling red,!red from the empty set gives the empty
set while !red,red gives exactly red. -/
theorem c3_reconcile_order :
    (∀ (acc : List Str) (kw : Str), kw.head? = some '!' → kw.tail ∉ acc →
        applyToken acc kw = acc)
    ∧ (∀ (acc : List Str) (kw : Str), ¬ (kw.head? = some '!') → kw ∈ acc →
        applyToken acc kw = acc)
    ∧ (∀ (acc : List Str) (kw : Str), ¬ (kw.head? = some '!') → kw ∉ acc →
        applyToken acc kw = acc ++ [kw])
    ∧ (updateKeywords [] (("red,!red").data)).nextKeywords = []
    ∧ (updateKeywords [] (("!red,red").data)).nextKeywords = [("red").data] := by
  refine ⟨?rem, ?dup, ?add, by decide, by decide⟩
  case rem =>
    intro acc kw hh ht
    unfold applyToken
    rw [if_pos hh, List.filter_eq_self.mpr]
    intro t htmem
    simp only [decide_eq_true_eq]
    exact fun he => ht (he ▸ htmem)
  case dup =>
    intro acc kw hh hm
    unfold applyToken
    rw [if_neg hh, if_pos hm]
  case add =>
    intro acc kw hh hm
    unfold applyToken
    rw [if_neg hh, if_neg hm]

/-- C3 witness: removing an absent keyword from the empty set is a no-op. -/
theorem c3_witness : applyToken [] (("!red").data) = [] :=
  c3_reconcile_order.1 [] (("!red").data) (by decide) (by decide)

/-- C4: addedKeywords is exactly the filter of the non-removal tokens as
typed, independent of the starting set; adding the same token twice from
the empty set leaves one stored keyword while addedKeywords reports the
token both times. -/
theorem c4_added_intent :
    (∀ (current : List Str) (text : Str),
        (updateKeywords current text).addedKeywords
          = (tokenize text).filter (fun k => decide (k.head? ≠ some '!')))
    ∧ (∀ (c1 c2 : List Str) (text : Str),
        (updateKeywords c1 text).addedKeywords
          = (updateKeywords c2 text).addedKeywords)
    ∧ ((updateKeywords [] (("red").data)).addedKeywords = [("red").data]
        ∧ (updateKeywords (updateKeywords [] (("red").data)).nextKeywords
            (("red").data)).addedKeywords = [("red").data]
        ∧ (updateKeywords (updateKeywords [] (("red").data)).nextKeywords
            (("red").data)).nextKeywords.length = 1) :=
  ⟨fun _ _ => rfl, fun _ _ _ => rfl, by decide, by decide, by decide⟩

/-- C5: when the form passed validation (the first color slot holds a
non-empty valid color) and at least one slot exists, the extracted colors
list is non-empty and contains no empty string. -/
theorem c5_colors_nonempty (values : Nat → Option Str) (n : Nat) (s : Str)
    (hn : 1 ≤ n) (h1 : values 1 = some s) (hs : s ≠ [])
    (_hvalid : isValidColor s = true) :
    extractColorValues values n ≠ []
      ∧ ∀ c ∈ extractColorValues values n, c ≠ [] := by
  constructor
  · have h0 : (0 : Nat) ∈ List.range n := List.mem_range.mpr hn
    have hmem : values 1 ∈ (List.range n).map (fun i => values (i + 1)) := by
      have := List.mem_map_of_mem (fun i => values (i + 1)) h0
      simpa using this
    have hj : jsTruthy (values 1) = true := by simp [jsTruthy, h1, hs]
    have hmf : values 1
        ∈ ((List.range n).map (fun i => values (i + 1))).filter jsTruthy :=
      List.mem_filter.mpr ⟨hmem, hj⟩
    have hin : (values 1).getD [] ∈ extractColorValues values n := by
      unfold extractColorValues
      exact List.mem_map_of_mem _ hmf
    exact List.ne_nil_of_mem hin
  · intro c hc
    unfold extractColorValues at hc
    obtain ⟨v, hv, rfl⟩ := List.mem_map.mp hc
    have hjv : jsTruthy v = true := (List.mem_filter.mp hv).2
    cases v with
    | none => simp [jsTruthy] at hjv
    | some t => simpa [jsTruthy] using hjv

/-- C5 witness: one slot holding #fff. -/
theorem c5_witness :
    extractColorValues
        (fun i => if i = 1 then some (("#fff").data) else none) 1 ≠ []
      ∧ ∀ c ∈ extractColorValues
          (fun i => if i = 1 then some (("#fff").data) else none) 1, c ≠ [] :=
  c5_colors_nonempty _ 1 (("#fff").data) (by decide) (by simp) (by decide)
    (by decide)

/-- C6 (amended): updateKeywords keeps the stored keyword list free of
duplicates whenever the starting list is; the keywords field of a
persisted palette can nevertheless contain duplicates, because the form
value appends addedKeywords, which reports intent, on every update. -/
theorem c6_nextKeywords_nodup (current : List Str) (text : Str)
    (h : current.Nodup) :
    (updateKeywords current text).nextKeywords.Nodup := by
  have key : ∀ (toks : List Str) (acc : List Str), acc.Nodup →
      (toks.foldl applyToken acc).Nodup := by
    intro toks
    induction toks with
    | nil => exact fun acc hacc => hacc
    | cons k t ih =>
      intro acc hacc
      simp only [List.foldl_cons]
      apply ih
      unfold applyToken
      by_cases hbang : k.head? = some '!'
      · rw [if_pos hbang]
        exact hacc.filter _
      · rw [if_neg hbang]
        by_cases hmem : k ∈ acc
        · rw [if_pos hmem]
          exact hacc
        · rw [if_neg hmem]
          refine List.nodup_append.mpr ⟨hacc, List.nodup_singleton _, ?_⟩
          intro a ha hb
          simp only [List.mem_singleton] at hb
          subst hb
          exact hmem ha
  exact key _ _ h

/-- C6 witness: a two-element list stays duplicate-free. -/
theorem c6_witness :
    ([("a").data] : List Str).Nodup
      ∧ (updateKeywords [("a").data] (("b").data)).nextKeywords.Nodup :=
  ⟨by decide, c6_nextKeywords_nodup [("a").data] (("b").data) (by decide)⟩

/-- C6 counterexample: submitting after entering red twice through the
update-keywords field persists a palette whose keywords field is
[red, red], which has duplicates. -/
theorem c6_counterexample :
    ¬ (buildPalette [] [] (("Ocean").data) [] (("light").data)
        (some ((handleUpdateKeywords
          (handleUpdateKeywords [] [] (("red").data)).1
          (handleUpdateKeywords [] [] (("red").data)).2
          (("red").data)).2))
        [("#fff").data]).keywords.Nodup := by
  decide

/-- C7: extractColorValues equals the specification formulation (the
non-empty present fields color1 .. colorN in slot order), it is total in
the slot count, and on the documented example it returns the two
non-empty colors in order even when the count exceeds the fields
present. -/
theorem c7_extract_order :
    (∀ (values : Nat → Option Str) (n : Nat),
        extractColorValues values n = extractColorsSpec values n)
    ∧ extractColorValues
        (fun i => if i = 1 then some (("#fff").data)
          else if i = 2 then some []
          else if i = 3 then some (("#000").data) else none) 3
        = [("#fff").data, ("#000").data]
    ∧ extractColorValues
        (fun i => if i = 1 then some (("#fff").data)
          else if i = 2 then some []
          else if i = 3 then some (("#000").data) else none) 5
        = [("#fff").data, ("#000").data] := by
  refine ⟨?heq, by decide, by decide⟩
  case heq =>
    intro values n
    induction n with
    | zero => rfl
    | succ m ih =>
      unfold extractColorValues extractColorsSpec at ih ⊢
      rw [List.range_succ]
      simp only [List.map_append, List.filter_append, List.filterMap_append,
        ih]
      congr 1
      cases hv : values (m + 1) with
      | none => simp [jsTruthy, hv]
      | some s =>
        by_cases hs : s = []
        · subst hs
          simp [jsTruthy, hv]
        · simp [jsTruthy, hv, hs]

/-- C9: when the storage write throws, submitPalette catches the error
and does not re-throw, writes once (no retry), shows exactly one failure
toast and no success toast, never runs the cleanup callback, and leaves
the stored list unchanged; the cleanup callback runs only on the
successful-persist path. -/
theorem c9_submit_failure (ok : Bool) (prev : List StoredPalette)
    (p : StoredPalette) :
    ((submitPalette false prev p).threw = false
      ∧ (submitPalette false prev p).events.count SubmitEvent.storeWrite = 1
      ∧ (submitPalette false prev p).events.count SubmitEvent.toastFailure = 1
      ∧ SubmitEvent.toastSuccess ∉ (submitPalette false prev p).events
      ∧ SubmitEvent.cleanup ∉ (submitPalette false prev p).events
      ∧ (submitPalette false prev p).stored = prev)
    ∧ (SubmitEvent.cleanup ∈ (submitPalette ok prev p).events → ok = true) := by
  constructor
  · refine ⟨rfl, ?_, ?_, ?_, ?_, rfl⟩ <;> simp [submitPalette, List.count_cons]
  · intro h
    cases ok with
    | true => rfl
    | false => simp [submitPalette] at h

/-- C9 witness: on the success path the cleanup callback does run. -/
theorem c9_witness :
    SubmitEvent.cleanup ∈ (submitPalette true [] examplePalette).events
      ∧ true = true :=
  ⟨by decide, (c9_submit_failure true [] examplePalette).2 (by decide)⟩

/-- C10: addColorField increments the count, removeColorField decrements
it but never below one, resetColorFields returns to one; removing at one
is a no-op and every sequence of operations preserves a count of at
least one. -/
theorem c10_count_invariant :
    (∀ n, addColorField n = n + 1)
    ∧ (∀ n, removeColorField n = max 1 (n - 1))
    ∧ (∀ n, resetColorFields n = 1)
    ∧ removeColorField 1 = 1
    ∧ (∀ (n : Nat) (ops : List FieldOp), 1 ≤ n → 1 ≤ runFieldOps n ops) := by
  refine ⟨fun n => rfl, fun n => rfl, fun n => rfl, rfl, ?_⟩
  intro n ops
  induction ops generalizing n with
  | nil => exact fun h => h
  | cons op t ih =>
    intro h
    simp only [runFieldOps, List.foldl_cons] at ih ⊢
    apply ih
    cases op <;>
      simp [applyFieldOp, addColorField, removeColorField, resetColorFields]

/-- C10 witness: two removals from a single field keep one field. -/
theorem c10_witness :
    1 ≤ 1 ∧ 1 ≤ runFieldOps 1 [FieldOp.remove, FieldOp.remove, FieldOp.add] :=
  ⟨by decide,
    c10_count_invariant.2.2.2.2 1 [FieldOp.remove, FieldOp.remove, FieldOp.add]
      (by decide)⟩
